import Mathlib

/-!
Verification of the MCP server-manager core: shallow embedding of the
record store, lifecycle state machines, query pipeline and command-string
codec from `src/App.tsx`, `src/components/ServerCard.tsx` and
`src/components/ServerForm.tsx`, with the properties stated by the
specification proved or refuted against it.
-/

set_option maxHeartbeats 1000000
set_option maxRecDepth 16384

namespace MCP

/-! ## Data model (src/types.ts) -/

/-- `ServerStatus` from src/types.ts: the run-status values. -/
inductive ServerStatus where
  | online
  | offline
  | starting
  | stopping
deriving DecidableEq

/-- `VisibilityStatus` from src/types.ts. -/
inductive VisibilityStatus where
  | idle
  | publishing
  | unpublishing
deriving DecidableEq

/-- `TransportType` from src/types.ts; the runtime values are strings. -/
inductive TransportType where
  | sse
  | streamableHttp
deriving DecidableEq

/-- The runtime string of a `TransportType` value. -/
def TransportType.str : TransportType → String
  | .sse => "sse"
  | .streamableHttp => "streamable-http"

/-- `SourceFile` from src/types.ts. -/
structure SourceFile where
  path : String
  content : String
deriving DecidableEq

/-- `ToolArg` from src/types.ts. -/
structure ToolArg where
  name : String
  type : String
  description : String
deriving DecidableEq

/-- `Tool` from src/types.ts. -/
structure Tool where
  name : String
  description : String
  args : List ToolArg
deriving DecidableEq

/-- `ServerConfig` from src/types.ts.  Optional TS fields become `Option`;
`agentsRunning` and `maxAgents` are non-negative integers in every state the
program produces, so they are embedded as `Nat`. -/
structure ServerConfig where
  id : String
  name : String
  command : String
  status : ServerStatus
  transport : TransportType
  endpoint : String
  agentsRunning : Nat
  maxAgents : Nat
  sourceFiles : Option (List SourceFile)
  createdBy : String
  lastModified : String
  isPublic : Bool
  tools : Option (List Tool)
  visibilityStatus : Option VisibilityStatus
deriving DecidableEq

/-! ## Lifecycle state machine (src/App.tsx, `toggleServerStatus` and
`toggleServerVisibility`)

`toggleServerStatus(id, currentStatus)` performs one synchronous store
update and schedules one deferred update (a `setTimeout` callback).  The
two `setServers` updaters are embedded as two pure functions on the record
list.  The random draw `Math.floor(Math.random() * s.maxAgents)` is
embedded as an injected source `rand : Nat → Nat` applied to
`s.maxAgents`. -/

/-- The synchronous updater of `toggleServerStatus` (src/App.tsx line 119):
every record whose id matches moves to the transition status and gets a
fresh `lastModified`. -/
def toggleServerStatusImmediate (id : String) (currentStatus : ServerStatus)
    (now : String) (ss : List ServerConfig) : List ServerConfig :=
  let transitionStatus : ServerStatus :=
    if currentStatus = .online then .stopping else .starting
  ss.map fun s =>
    if s.id = id then { s with status := transitionStatus, lastModified := now } else s

/-- The deferred updater of `toggleServerStatus` (src/App.tsx line 122):
every record whose id matches moves to the final status; `agentsRunning`
becomes `rand s.maxAgents` when the final status is Online and `0`
otherwise.  `lastModified` is not touched. -/
def toggleServerStatusDeferred (id : String) (currentStatus : ServerStatus)
    (rand : Nat → Nat) (ss : List ServerConfig) : List ServerConfig :=
  let finalStatus : ServerStatus :=
    if currentStatus = .online then .offline else .online
  ss.map fun s =>
    if s.id = id then
      { s with status := finalStatus,
               agentsRunning := if finalStatus = .online then rand s.maxAgents else 0 }
    else s

/-- The synchronous updater of `toggleServerVisibility` (src/App.tsx
line 130). -/
def toggleServerVisibilityImmediate (id : String) (isCurrentlyPublic : Bool)
    (now : String) (ss : List ServerConfig) : List ServerConfig :=
  let transitionStatus : VisibilityStatus :=
    if isCurrentlyPublic then .unpublishing else .publishing
  ss.map fun s =>
    if s.id = id then
      { s with visibilityStatus := some transitionStatus, lastModified := now }
    else s

/-- The deferred updater of `toggleServerVisibility` (src/App.tsx
line 133): flips `isPublic` and returns the visibility status to Idle. -/
def toggleServerVisibilityDeferred (id : String) (isCurrentlyPublic : Bool)
    (ss : List ServerConfig) : List ServerConfig :=
  ss.map fun s =>
    if s.id = id then
      { s with isPublic := !isCurrentlyPublic, visibilityStatus := some VisibilityStatus.idle }
    else s

/-- `isTransitioning` from src/components/ServerCard.tsx line 40: the
run-status toggle button is disabled exactly when this holds. -/
def isTransitioning (st : ServerStatus) : Bool :=
  st == .starting || st == .stopping

/-- The public entry point for toggling run status: the ServerCard button
(disabled while `isTransitioning`, src/components/ServerCard.tsx lines
156-170) composed with `toggleServerStatus(server.id, server.status)`
(src/App.tsx line 223).  When the button is disabled the handler cannot
run and the store is untouched; otherwise the synchronous updater runs
with the record's current status. -/
def toggleRunStatusEntry (id : String) (now : String)
    (ss : List ServerConfig) : List ServerConfig :=
  match ss.find? (fun s => s.id == id) with
  | none => ss
  | some s =>
    if isTransitioning s.status then ss
    else toggleServerStatusImmediate id s.status now ss

/-- The public entry point for deleting a record: the ServerCard delete
button (disabled while `status !== ServerStatus.OFFLINE`,
src/components/ServerCard.tsx lines 171-183) composed with the removal
`prev.filter(s => s.id !== server.id)` performed by `handleInitiateDelete`
(skip-confirmation path, src/App.tsx line 96) and by
`handleConfirmDelete` (src/App.tsx line 105), which run the same filter. -/
def deleteServerEntry (id : String) (ss : List ServerConfig) : List ServerConfig :=
  match ss.find? (fun s => s.id == id) with
  | none => ss
  | some s =>
    if s.status = .offline then ss.filter (fun t => t.id != id) else ss

/-! ## Query pipeline (src/App.tsx, `serverCounts`, `filteredServers`,
`paginatedServers`) -/

/-- The status filter selected in the UI: `'All' | ServerStatus`. -/
inductive StatusFilterType where
  | all
  | status (st : ServerStatus)
deriving DecidableEq

/-- Substring test on character lists, the semantics of JavaScript
`String.prototype.includes`. -/
def containsSub (needle : List Char) : List Char → Bool
  | [] => needle.isEmpty
  | c :: t => needle.isPrefixOf (c :: t) || containsSub needle t

/-- `hay.includes(needle)` on strings. -/
def strContains (hay needle : String) : Bool :=
  containsSub needle.data hay.data

/-- `toLowerCase` on the character list of a string (the ASCII fragment of
the JavaScript conversion, which is all these fields exercise). -/
def strToLower (s : String) : String :=
  String.mk (s.data.map Char.toLower)

/-- The search predicate of `filteredServers` (src/App.tsx lines 165-174),
applied to the already-lowercased query `lq`. -/
def matchesSearch (lq : String) (s : ServerConfig) : Bool :=
  strContains (strToLower s.name) lq ||
  strContains (strToLower s.command) lq ||
  strContains (strToLower s.endpoint) lq ||
  strContains (strToLower s.transport.str) lq ||
  strContains (strToLower s.createdBy) lq ||
  (match s.sourceFiles with
   | some fs => fs.any fun f => strContains (strToLower f.path) lq
   | none => false) ||
  (s.isPublic && strContains "public" lq) ||
  (!s.isPublic && strContains "private" lq)

/-- The search step of `filteredServers` (src/App.tsx lines 162-174): an
empty lowercased query keeps everything, otherwise records are filtered by
`matchesSearch`. -/
def searchFilter (q : String) (l : List ServerConfig) : List ServerConfig :=
  let lq := strToLower q
  if lq = "" then l else l.filter (matchesSearch lq)

/-- `filteredServers` (src/App.tsx lines 155-175): status filter followed
by the search step. -/
def filteredServers (f : StatusFilterType) (q : String)
    (ss : List ServerConfig) : List ServerConfig :=
  let tempServers :=
    match f with
    | .all => ss
    | .status st => ss.filter fun s => s.status == st
  searchFilter q tempServers

/-- `ITEMS_PER_PAGE` (src/App.tsx line 31). -/
def ITEMS_PER_PAGE : Nat := 6

/-- `paginatedServers` (src/App.tsx lines 177-180):
`filteredServers.slice((page-1)*6, (page-1)*6 + 6)` for a 1-indexed page. -/
def paginatedServers (page : Nat) (l : List ServerConfig) : List ServerConfig :=
  (l.drop ((page - 1) * ITEMS_PER_PAGE)).take ITEMS_PER_PAGE

/-- The whole query pipeline: filter, search, then paginate. -/
def queryPipeline (f : StatusFilterType) (q : String) (page : Nat)
    (ss : List ServerConfig) : List ServerConfig :=
  paginatedServers page (filteredServers f q ss)

/-- `serverCounts` (src/App.tsx lines 147-153): `All` maps to the store
size, each status to the number of records holding it.  Computed from the
raw store, before any search-text filtering. -/
def serverCounts (ss : List ServerConfig) : StatusFilterType → Nat
  | .all => ss.length
  | .status st => (ss.filter fun s => s.status == st).length

/-- The status values in the order of `Object.values(ServerStatus)`. -/
def statusValues : List ServerStatus :=
  [.online, .offline, .starting, .stopping]

end MCP

namespace MCP

/-! ## Sample records for concrete evaluations -/

/-- A concrete Offline record, shaped like the initial store entries of
src/App.tsx. -/
def sampleServer : ServerConfig :=
  { id := "1", name := "Project Chimera",
    command := "mcp-agent --run research --max-agents 10",
    status := .offline, transport := .sse, endpoint := "192.168.1.101:8080",
    agentsRunning := 0, maxAgents := 10, sourceFiles := none,
    createdBy := "admin@mcp.com", lastModified := "2023-10-27T10:00:00Z",
    isPublic := true, tools := none, visibilityStatus := some .idle }

/-- A concrete Online record. -/
def sampleOnline : ServerConfig :=
  { sampleServer with id := "2", status := .online, agentsRunning := 8 }

/-- A concrete record caught mid-transition. -/
def sampleStartingRec : ServerConfig :=
  { sampleServer with id := "3", status := .starting }

/-- The Offline sample after the immediate step of a start toggle. -/
def sampleAfterImm : ServerConfig :=
  { sampleServer with status := .starting, lastModified := "T1" }

/-- The Offline sample after the deferred step resolves the start. -/
def sampleAfterDef : ServerConfig :=
  { sampleAfterImm with status := .online, agentsRunning := 0 }

/-- The Online sample after the immediate step of a stop toggle. -/
def sampleOnlineImm : ServerConfig :=
  { sampleOnline with status := .stopping, lastModified := "T1" }

/-- The Online sample after the deferred step resolves the stop. -/
def sampleOnlineDef : ServerConfig :=
  { sampleOnlineImm with status := .offline, agentsRunning := 0 }

end MCP

namespace MCP

/-! ## C1: run-status transitions -/

/-- C1.  Invoking `toggleRunStatus` on an Offline record (the card passes
`currentStatus = Offline`) sets every record with that id to Starting
immediately, and the deferred step then sets it to Online with
`agentsRunning = rand maxAgents`, which lies in `[0, maxAgents)` whenever
`maxAgents` is positive (the random source satisfies
`Math.floor(Math.random() * m) < m` for `m > 0`).  Invoking it on an
Online record sets Stopping immediately, and the deferred step sets
Offline with `agentsRunning = 0`. -/
theorem claim_C1 (id now : String) (rand : Nat → Nat)
    (hrand : ∀ m, 0 < m → rand m < m) (ss : List ServerConfig) :
    (∀ t ∈ toggleServerStatusImmediate id .offline now ss,
        t.id = id → t.status = .starting) ∧
    (∀ t ∈ toggleServerStatusDeferred id .offline rand
        (toggleServerStatusImmediate id .offline now ss),
        t.id = id → t.status = .online ∧ 0 ≤ t.agentsRunning ∧
          (0 < t.maxAgents → t.agentsRunning < t.maxAgents)) ∧
    (∀ t ∈ toggleServerStatusImmediate id .online now ss,
        t.id = id → t.status = .stopping) ∧
    (∀ t ∈ toggleServerStatusDeferred id .online rand
        (toggleServerStatusImmediate id .online now ss),
        t.id = id → t.status = .offline ∧ t.agentsRunning = 0) := by
  refine ⟨?_, ?_, ?_, ?_⟩
  · intro t ht hid
    simp only [toggleServerStatusImmediate, List.mem_map] at ht
    obtain ⟨s, _, heq⟩ := ht
    by_cases h : s.id = id
    · simp only [h, if_true] at heq
      subst heq; rfl
    · simp only [h, if_false] at heq
      subst heq; exact absurd hid h
  · intro t ht hid
    simp only [toggleServerStatusDeferred, List.mem_map] at ht
    obtain ⟨s, _, heq⟩ := ht
    by_cases h : s.id = id
    · simp only [h, if_true] at heq
      subst heq
      refine ⟨rfl, Nat.zero_le _, fun hm => ?_⟩
      exact hrand _ hm
    · simp only [h, if_false] at heq
      subst heq; exact absurd hid h
  · intro t ht hid
    simp only [toggleServerStatusImmediate, List.mem_map] at ht
    obtain ⟨s, _, heq⟩ := ht
    by_cases h : s.id = id
    · simp only [h, if_true] at heq
      subst heq; rfl
    · simp only [h, if_false] at heq
      subst heq; exact absurd hid h
  · intro t ht hid
    simp only [toggleServerStatusDeferred, List.mem_map] at ht
    obtain ⟨s, _, heq⟩ := ht
    by_cases h : s.id = id
    · simp only [h, if_true] at heq
      subst heq; exact ⟨rfl, rfl⟩
    · simp only [h, if_false] at heq
      subst heq; exact absurd hid h

/-- Witness for C1 at a concrete store. -/
theorem claim_C1_witness :
    sampleAfterImm.status = ServerStatus.starting ∧
    sampleAfterDef.status = ServerStatus.online ∧
    sampleAfterDef.agentsRunning < sampleAfterDef.maxAgents ∧
    sampleOnlineImm.status = ServerStatus.stopping ∧
    sampleOnlineDef.status = ServerStatus.offline ∧
    sampleOnlineDef.agentsRunning = 0 := by
  have h1 := claim_C1 "1" "T1" (fun _ => 0) (fun m hm => hm) [sampleServer]
  have h2 := claim_C1 "2" "T1" (fun _ => 0) (fun m hm => hm) [sampleOnline]
  refine ⟨h1.1 sampleAfterImm (by decide) (by decide), ?_, ?_, ?_, ?_, ?_⟩
  · exact (h1.2.1 sampleAfterDef (by decide) (by decide)).1
  · exact (h1.2.1 sampleAfterDef (by decide) (by decide)).2.2 (by decide)
  · exact h2.2.2.1 sampleOnlineImm (by decide) (by decide)
  · exact (h2.2.2.2 sampleOnlineDef (by decide) (by decide)).1
  · exact (h2.2.2.2 sampleOnlineDef (by decide) (by decide)).2

/-! ## C2: toggling is rejected in transient states -/

/-- C2.  When every record carrying the toggled id is Starting or
Stopping, the public toggle entry point (the card disables the button for
a transitioning record, so the handler never runs) leaves the store
exactly unchanged. -/
theorem claim_C2 (id now : String) (ss : List ServerConfig)
    (h : ∀ s ∈ ss, s.id = id → isTransitioning s.status = true) :
    toggleRunStatusEntry id now ss = ss := by
  unfold toggleRunStatusEntry
  cases hf : ss.find? (fun s => s.id == id) with
  | none => rfl
  | some s =>
    have hmem : s ∈ ss := List.mem_of_find?_eq_some hf
    have hp := List.find?_some hf
    have ht : isTransitioning s.status = true := h s hmem (by simpa using hp)
    simp [ht]

/-- Witness for C2: a store holding one Starting record is untouched. -/
theorem claim_C2_witness :
    toggleRunStatusEntry "3" "T2" [sampleStartingRec] = [sampleStartingRec] :=
  claim_C2 "3" "T2" [sampleStartingRec] (by decide)

/-! ## C3: delete only while Offline -/

/-- C3.  The delete entry point (the card disables the delete button
unless the record is Offline) leaves the store unchanged whenever every
record carrying the id is not Offline; when the record found for the id is
Offline, the record is removed by the store filter. -/
theorem claim_C3 (id : String) (ss : List ServerConfig) :
    ((∀ s ∈ ss, s.id = id → s.status ≠ .offline) →
        deleteServerEntry id ss = ss) ∧
    (∀ s, ss.find? (fun t => t.id == id) = some s → s.status = .offline →
        deleteServerEntry id ss = ss.filter (fun t => t.id != id)) := by
  constructor
  · intro h
    unfold deleteServerEntry
    cases hf : ss.find? (fun s => s.id == id) with
    | none => rfl
    | some s =>
      have hmem : s ∈ ss := List.mem_of_find?_eq_some hf
      have hp := List.find?_some hf
      have hne := h s hmem (by simpa using hp)
      simp [hne]
  · intro s hf hoff
    unfold deleteServerEntry
    rw [hf]
    simp [hoff]

/-- Witness for C3: deleting an Online record is a no-op, deleting an
Offline record filters it out of the store. -/
theorem claim_C3_witness :
    deleteServerEntry "2" [sampleOnline] = [sampleOnline] ∧
    deleteServerEntry "1" [sampleServer] =
      List.filter (fun t => t.id != "1") [sampleServer] :=
  ⟨(claim_C3 "2" [sampleOnline]).1 (by decide),
   (claim_C3 "1" [sampleServer]).2 sampleServer (by decide) (by decide)⟩

end MCP

namespace MCP

/-- Mapping a function that fixes every element of a list is the
identity. -/
theorem map_eq_self_of {α : Type} (l : List α) (f : α → α)
    (h : ∀ a ∈ l, f a = a) : l.map f = l := by
  induction l with
  | nil => rfl
  | cons a t ih =>
    simp only [List.map_cons]
    rw [h a (by simp), ih fun b hb => h b (by simp [hb])]

/-- Two maps over the same list agree when the functions agree on its
elements. -/
theorem map_congr_fn {α β : Type} (l : List α) (f g : α → β)
    (h : ∀ a ∈ l, f a = g a) : l.map f = l.map g := by
  induction l with
  | nil => rfl
  | cons a t ih =>
    simp only [List.map_cons]
    rw [h a (by simp), ih fun b hb => h b (by simp [hb])]

/-! ## C9: lastModified moves at the initial transition only -/

/-- C9.  Both updaters that start a transition stamp `lastModified` with
the current time on the matching record; both deferred resolution updaters
leave `lastModified` of every record unchanged. -/
theorem claim_C9 (id now : String) (cs : ServerStatus) (pub : Bool)
    (rand : Nat → Nat) (ss : List ServerConfig) :
    (∀ t ∈ toggleServerStatusImmediate id cs now ss,
        t.id = id → t.lastModified = now) ∧
    (toggleServerStatusDeferred id cs rand ss).map ServerConfig.lastModified =
      ss.map ServerConfig.lastModified ∧
    (∀ t ∈ toggleServerVisibilityImmediate id pub now ss,
        t.id = id → t.lastModified = now) ∧
    (toggleServerVisibilityDeferred id pub ss).map ServerConfig.lastModified =
      ss.map ServerConfig.lastModified := by
  refine ⟨?_, ?_, ?_, ?_⟩
  · intro t ht hid
    simp only [toggleServerStatusImmediate, List.mem_map] at ht
    obtain ⟨s, _, heq⟩ := ht
    by_cases h : s.id = id
    · simp only [h, if_true] at heq
      subst heq; rfl
    · simp only [h, if_false] at heq
      subst heq; exact absurd hid h
  · simp only [toggleServerStatusDeferred, List.map_map]
    apply map_congr_fn
    intro s _
    by_cases h : s.id = id <;> simp [Function.comp, h]
  · intro t ht hid
    simp only [toggleServerVisibilityImmediate, List.mem_map] at ht
    obtain ⟨s, _, heq⟩ := ht
    by_cases h : s.id = id
    · simp only [h, if_true] at heq
      subst heq; rfl
    · simp only [h, if_false] at heq
      subst heq; exact absurd hid h
  · simp only [toggleServerVisibilityDeferred, List.map_map]
    apply map_congr_fn
    intro s _
    by_cases h : s.id = id <;> simp [Function.comp, h]

/-- Witness for C9 at a concrete store. -/
theorem claim_C9_witness :
    sampleAfterImm.lastModified = "T1" ∧
    (toggleServerStatusDeferred "1" .offline (fun _ => 0)
        [sampleServer]).map ServerConfig.lastModified =
      [sampleServer].map ServerConfig.lastModified ∧
    (toggleServerVisibilityDeferred "1" true
        [sampleServer]).map ServerConfig.lastModified =
      [sampleServer].map ServerConfig.lastModified := by
  have h := claim_C9 "1" "T1" .offline true (fun _ => 0) [sampleServer]
  exact ⟨h.1 sampleAfterImm (by decide) (by decide), h.2.1, h.2.2.2⟩

/-! ## C10: frame property of the four updaters -/

/-- C10.  Every updater of both state machines, immediate or deferred,
keeps every record whose id differs from the toggled one exactly in place,
and leaves the whole store unchanged when no record carries the toggled id
(so a resolution firing after the record was deleted never resurrects
it). -/
theorem claim_C10 (id now : String) (cs : ServerStatus) (pub : Bool)
    (rand : Nat → Nat) (ss : List ServerConfig) :
    (∀ i s, ss.get? i = some s → s.id ≠ id →
      (toggleServerStatusImmediate id cs now ss).get? i = some s ∧
      (toggleServerStatusDeferred id cs rand ss).get? i = some s ∧
      (toggleServerVisibilityImmediate id pub now ss).get? i = some s ∧
      (toggleServerVisibilityDeferred id pub ss).get? i = some s) ∧
    ((∀ s ∈ ss, s.id ≠ id) →
      toggleServerStatusImmediate id cs now ss = ss ∧
      toggleServerStatusDeferred id cs rand ss = ss ∧
      toggleServerVisibilityImmediate id pub now ss = ss ∧
      toggleServerVisibilityDeferred id pub ss = ss) := by
  constructor
  · intro i s hget hne
    refine ⟨?_, ?_, ?_, ?_⟩ <;>
      · simp only [toggleServerStatusImmediate, toggleServerStatusDeferred,
          toggleServerVisibilityImmediate, toggleServerVisibilityDeferred]
        rw [List.get?_map, hget]
        simp [hne]
  · intro h
    refine ⟨?_, ?_, ?_, ?_⟩ <;>
      · apply map_eq_self_of
        intro s hs
        simp [h s hs]

/-- Witness for C10: toggling an id absent from the store changes
nothing. -/
theorem claim_C10_witness :
    (toggleServerStatusImmediate "9" .online "T3" [sampleOnline]).get? 0 =
      some sampleOnline ∧
    toggleServerStatusDeferred "9" .online (fun _ => 0) [sampleOnline] =
      [sampleOnline] ∧
    toggleServerVisibilityDeferred "9" true [sampleOnline] = [sampleOnline] := by
  have h := claim_C10 "9" "T3" .online true (fun _ => 0) [sampleOnline]
  exact ⟨(h.1 0 sampleOnline (by decide) (by decide)).1,
    (h.2 (by decide)).2.1, (h.2 (by decide)).2.2.2⟩

end MCP

namespace MCP

/-! ## C6: pagination -/

/-- Further concrete records for pagination witnesses. -/
def sampleList7 : List ServerConfig :=
  [sampleServer, sampleOnline, sampleStartingRec,
   { sampleServer with id := "4" }, { sampleServer with id := "5" },
   { sampleServer with id := "6" }, { sampleServer with id := "7" }]

/-- C6.  Pagination slices the filtered list into pages of 6: on a
1-indexed page the i-th rendered record is element `(page-1)*6 + i` of the
filtered list (and only indexes below 6 are rendered), a page beyond the
data yields the empty slice, and the whole pipeline on filter All, empty
search and page 1 returns the first six records in store order. -/
theorem claim_C6 :
    (∀ (l : List ServerConfig) (page i : Nat), 1 ≤ page →
      (paginatedServers page l).get? i =
        if i < ITEMS_PER_PAGE then l.get? ((page - 1) * ITEMS_PER_PAGE + i)
        else none) ∧
    (∀ (l : List ServerConfig) (page : Nat),
      l.length ≤ (page - 1) * ITEMS_PER_PAGE → paginatedServers page l = []) ∧
    (∀ ss : List ServerConfig, 6 ≤ ss.length →
      queryPipeline .all "" 1 ss = ss.take 6) := by
  refine ⟨?_, ?_, ?_⟩
  · intro l page i _
    unfold paginatedServers
    by_cases hi : i < ITEMS_PER_PAGE
    · rw [if_pos hi, List.get?_take hi, List.get?_drop]
    · rw [if_neg hi]
      apply List.get?_eq_none.mpr
      calc (List.take ITEMS_PER_PAGE (l.drop ((page - 1) * ITEMS_PER_PAGE))).length
          ≤ ITEMS_PER_PAGE := by
            simpa using List.length_take_le ITEMS_PER_PAGE _
        _ ≤ i := Nat.le_of_not_lt hi
  · intro l page h
    unfold paginatedServers
    rw [List.drop_eq_nil_of_le h]
    rfl
  · intro ss _
    unfold queryPipeline filteredServers searchFilter paginatedServers
    have h0 : strToLower "" = "" := rfl
    simp [h0, ITEMS_PER_PAGE]

/-- Witness for C6 at a concrete seven-record store. -/
theorem claim_C6_witness :
    (paginatedServers 2 sampleList7).get? 0 =
      (if 0 < ITEMS_PER_PAGE then sampleList7.get? ((2 - 1) * ITEMS_PER_PAGE + 0)
       else none) ∧
    paginatedServers 3 sampleList7 = [] ∧
    queryPipeline .all "" 1 sampleList7 = sampleList7.take 6 :=
  ⟨claim_C6.1 sampleList7 2 0 (by decide),
   claim_C6.2.1 sampleList7 3 (by decide),
   claim_C6.2.2 sampleList7 (by decide)⟩

/-! ## C7: per-status counts -/

/-- C7.  `serverCounts` maps All to the store size and each status to the
number of records with that status, computed before (independently of) the
search text: each status count equals the length of the status-only
filtered list with an empty search.  The four status counts partition the
store, so they sum to its length. -/
theorem claim_C7 (ss : List ServerConfig) :
    serverCounts ss .all = ss.length ∧
    (statusValues.map fun st => serverCounts ss (.status st)).sum = ss.length ∧
    (∀ st, serverCounts ss (.status st) =
      (filteredServers (.status st) "" ss).length) := by
  refine ⟨rfl, ?_, ?_⟩
  · induction ss with
    | nil => rfl
    | cons s t ih =>
      simp only [statusValues, serverCounts, List.map_cons, List.map_nil,
        List.sum_cons, List.sum_nil, List.length_cons] at ih ⊢
      cases hs : s.status <;>
        simp only [List.filter_cons, hs] <;> simp <;> omega
  · intro st
    have h0 : strToLower "" = "" := rfl
    simp [serverCounts, filteredServers, searchFilter, h0]

end MCP

namespace MCP

/-! ## C5: search step -/

/-- A public record whose name mentions the word private. -/
def cexPrivateName : ServerConfig :=
  { sampleServer with name := "private lounge", isPublic := true }

/-- C5 counterexample.  The claim states that a record with
`isPublic = true` does not appear when searching for the text private; the
record below is public, yet it is retained by the search step for that
text, because its name field contains it. -/
theorem claim_C5_cex :
    cexPrivateName.isPublic = true ∧
    cexPrivateName ∈ filteredServers .all "private" [cexPrivateName] := by
  constructor
  · rfl
  · decide

/-- C5 as amended.  The search step retains exactly the records satisfying
the disjunction of the source predicate: some lowercased text field (name,
command, endpoint, transport, createdBy, a source-file path) contains the
lowercased search text, or the record is public and the token public
contains the search text, or non-public and the token private contains it.
In particular a public record always appears when searching public, a
non-public record always appears when searching private, and a record is
absent from the opposite search provided none of its text fields contains
the opposite token. -/
theorem claim_C5_amended :
    (∀ (q : String) (l : List ServerConfig) (r : ServerConfig),
        strToLower q ≠ "" →
        (r ∈ searchFilter q l ↔ r ∈ l ∧ matchesSearch (strToLower q) r = true)) ∧
    (∀ r : ServerConfig, r.isPublic = true → matchesSearch "public" r = true) ∧
    (∀ r : ServerConfig, r.isPublic = false → matchesSearch "private" r = true) ∧
    (∀ r : ServerConfig, r.isPublic = true →
        strContains (strToLower r.name) "private" = false →
        strContains (strToLower r.command) "private" = false →
        strContains (strToLower r.endpoint) "private" = false →
        strContains (strToLower r.transport.str) "private" = false →
        strContains (strToLower r.createdBy) "private" = false →
        (∀ fs, r.sourceFiles = some fs →
          ∀ f ∈ fs, strContains (strToLower f.path) "private" = false) →
        matchesSearch "private" r = false) ∧
    (∀ r : ServerConfig, r.isPublic = false →
        strContains (strToLower r.name) "public" = false →
        strContains (strToLower r.command) "public" = false →
        strContains (strToLower r.endpoint) "public" = false →
        strContains (strToLower r.transport.str) "public" = false →
        strContains (strToLower r.createdBy) "public" = false →
        (∀ fs, r.sourceFiles = some fs →
          ∀ f ∈ fs, strContains (strToLower f.path) "public" = false) →
        matchesSearch "public" r = false) := by
  refine ⟨?_, ?_, ?_, ?_, ?_⟩
  · intro q l r hq
    simp only [searchFilter, if_neg hq]
    exact List.mem_filter
  · intro r h
    have hc : strContains "public" "public" = true := by decide
    simp [matchesSearch, h, hc]
  · intro r h
    have hc : strContains "private" "private" = true := by decide
    simp [matchesSearch, h, hc]
  · intro r h h1 h2 h3 h4 h5 h6
    have hp : strContains "public" "private" = false := by decide
    simp only [matchesSearch, h1, h2, h3, h4, h5, h, hp, Bool.false_or,
      Bool.and_false, Bool.not_true, Bool.false_and, Bool.or_false]
    cases hsf : r.sourceFiles with
    | none => rfl
    | some fs =>
      simp only [List.any_eq_false]
      intro f hf
      simp [h6 fs hsf f hf]
  · intro r h h1 h2 h3 h4 h5 h6
    have hp : strContains "private" "public" = false := by decide
    simp only [matchesSearch, h1, h2, h3, h4, h5, h, hp, Bool.false_or,
      Bool.and_false, Bool.not_false, Bool.false_and, Bool.or_false,
      Bool.true_and, Bool.and_true]
    cases hsf : r.sourceFiles with
    | none => rfl
    | some fs =>
      simp only [List.any_eq_false]
      intro f hf
      simp [h6 fs hsf f hf]

/-- Witness for the amended C5 at concrete records. -/
theorem claim_C5_amended_witness :
    (sampleServer ∈ searchFilter "Chimera" [sampleServer] ↔
      sampleServer ∈ [sampleServer] ∧
        matchesSearch (strToLower "Chimera") sampleServer = true) ∧
    matchesSearch "public" sampleServer = true ∧
    matchesSearch "private" sampleServer = false := by
  refine ⟨claim_C5_amended.1 "Chimera" [sampleServer] sampleServer (by decide),
    claim_C5_amended.2.1 sampleServer (by decide), ?_⟩
  exact claim_C5_amended.2.2.2.1 sampleServer (by decide) (by decide) (by decide)
    (by decide) (by decide) (by decide) (by intro fs hfs; cases hfs)

end MCP

namespace MCP

/-! ## Command-string codec (src/components/ServerForm.tsx)

The structured editor keeps a list of `FormTool` values; at save time they
are flattened (minus `id`) into a JSON array inside the command string,
and at edit-load time the string is parsed back.  JSON serialization and
parsing are modelled on character lists.  The modelled JSON fragment is
the one the codec's payloads inhabit: strings, booleans, null, arrays and
objects; numeric literals are outside the fragment and fail the parse
(the codec never emits them, and a failed parse falls back exactly like a
thrown exception does in the source). -/

/-- The apostrophe character. -/
def apos : Char := Char.ofNat 39

/-- The left-brace character. -/
def lbChar : Char := Char.ofNat 123

/-- The right-brace character. -/
def rbChar : Char := Char.ofNat 125

/-- `FormTool` from src/components/ServerForm.tsx lines 15-30.  The TS
`type` field is a plain string at runtime; optional fields are `Option`. -/
structure ToolParams where
  skip : Bool
  top : Bool
  facet : Bool
  filter : Bool
deriving DecidableEq

/-- The internal form representation of one tool. -/
structure FormTool where
  id : Nat
  name : String
  type : String
  index : String
  code : Option String
  method : Option String
  endpoint : Option String
  description : String
  params : ToolParams
deriving DecidableEq

/-- `CURRENT_SDK_VERSION` (src/components/ServerForm.tsx line 33). -/
def CURRENT_SDK_VERSION : String := "1.4.2"

/-- A JSON value of the modelled fragment. -/
inductive JVal where
  | str (s : String)
  | jbool (b : Bool)
  | arr (elems : List JVal)
  | obj (members : List (String × JVal))
  | null

/-- Lower-case hexadecimal digit, as emitted by `JSON.stringify`. -/
def hexDigitChar (n : Nat) : Char :=
  if n < 10 then Char.ofNat (48 + n) else Char.ofNat (87 + n)

/-- The escape of one character inside a JSON string literal, following
`JSON.stringify`: quote, backslash and the named control characters get
two-character escapes, other control characters get `\u00xx`, everything
else is emitted verbatim. -/
def escapeChar (c : Char) : List Char :=
  if c = '"' then ['\\', '"']
  else if c = '\\' then ['\\', '\\']
  else if c = Char.ofNat 8 then ['\\', 'b']
  else if c = Char.ofNat 9 then ['\\', 't']
  else if c = Char.ofNat 10 then ['\\', 'n']
  else if c = Char.ofNat 12 then ['\\', 'f']
  else if c = Char.ofNat 13 then ['\\', 'r']
  else if c.toNat < 32 then
    ['\\', 'u', '0', '0', hexDigitChar (c.toNat / 16), hexDigitChar (c.toNat % 16)]
  else [c]

/-- A JSON string literal (with quotes) for `s`, as a character list. -/
def jstrData (s : String) : List Char :=
  '"' :: (s.data.flatMap escapeChar) ++ ['"']

/-- A JSON boolean literal as a character list. -/
def jboolData (b : Bool) : List Char :=
  if b then "true".data else "false".data

/-- Comma-separated concatenation, as `JSON.stringify` renders array and
object members. -/
def commaJoin : List (List Char) → List Char
  | [] => []
  | [x] => x
  | x :: y :: t => x ++ ',' :: commaJoin (y :: t)

/-- The serialized `params` object, keys in the insertion order of
`defaultParams` (src/components/ServerForm.tsx line 32). -/
def paramsChars (p : ToolParams) : List Char :=
  lbChar :: (jstrData "skip" ++ ':' :: jboolData p.skip)
    ++ ',' :: (jstrData "top" ++ ':' :: jboolData p.top)
    ++ ',' :: (jstrData "facet" ++ ':' :: jboolData p.facet)
    ++ ',' :: (jstrData "filter" ++ ':' :: jboolData p.filter)
    ++ [rbChar]

/-- A possibly-absent string member: `JSON.stringify` drops properties
holding `undefined`. -/
def optMemberChars (k : String) : Option String → List Char
  | none => []
  | some v => ',' :: (jstrData k ++ ':' :: jstrData v)

/-- `JSON.stringify` of one element of `toolsForCommand`
(src/components/ServerForm.tsx line 215): the tool minus its `id`, keys in
the insertion order of the `FormTool` literal. -/
def toolChars (t : FormTool) : List Char :=
  lbChar :: (jstrData "name" ++ ':' :: jstrData t.name)
    ++ ',' :: (jstrData "type" ++ ':' :: jstrData t.type)
    ++ ',' :: (jstrData "index" ++ ':' :: jstrData t.index)
    ++ optMemberChars "code" t.code
    ++ optMemberChars "method" t.method
    ++ optMemberChars "endpoint" t.endpoint
    ++ ',' :: (jstrData "description" ++ ':' :: jstrData t.description)
    ++ ',' :: (jstrData "params" ++ ':' :: paramsChars t.params)
    ++ [rbChar]

/-- `JSON.stringify(toolsForCommand)`: the serialized JSON array. -/
def stringifyTools (ts : List FormTool) : String :=
  String.mk ('[' :: commaJoin (ts.map toolChars) ++ [']'])

/-- The encoder (src/components/ServerForm.tsx lines 215-216): the command
string built by `handleSubmit` for a managed server. -/
def toolsToCommand (ts : List FormTool) : String :=
  "mcp-sdk-runner --sdk-version " ++ CURRENT_SDK_VERSION ++ " --tools "
    ++ String.singleton apos ++ stringifyTools ts ++ String.singleton apos

/-! ### JSON parsing (the model of `JSON.parse`) -/

/-- JSON whitespace. -/
def isWsChar (c : Char) : Bool :=
  c = ' ' || c = Char.ofNat 9 || c = Char.ofNat 10 || c = Char.ofNat 13

/-- Drop leading JSON whitespace. -/
def skipWs (l : List Char) : List Char :=
  l.dropWhile isWsChar

/-- The value of a hexadecimal digit. -/
def hexVal (c : Char) : Option Nat :=
  if Char.ofNat 48 ≤ c ∧ c ≤ Char.ofNat 57 then some (c.toNat - 48)
  else if Char.ofNat 97 ≤ c ∧ c ≤ Char.ofNat 102 then some (c.toNat - 87)
  else if Char.ofNat 65 ≤ c ∧ c ≤ Char.ofNat 70 then some (c.toNat - 55)
  else none

/-- The named two-character escapes accepted inside JSON strings. -/
def escMap (e : Char) : Option Char :=
  if e = '"' then some '"'
  else if e = '\\' then some '\\'
  else if e = '/' then some '/'
  else if e = 'b' then some (Char.ofNat 8)
  else if e = 'f' then some (Char.ofNat 12)
  else if e = 'n' then some (Char.ofNat 10)
  else if e = 'r' then some (Char.ofNat 13)
  else if e = 't' then some (Char.ofNat 9)
  else none

/-- Parse the body of a JSON string literal (the opening quote already
consumed), returning the decoded characters and the rest of the input
after the closing quote.  Raw control characters are rejected, as
`JSON.parse` rejects them. -/
def parseStrChars : List Char → Option (List Char × List Char)
  | [] => none
  | c :: rest =>
    if c = '"' then some ([], rest)
    else if c = '\\' then
      match rest with
      | [] => none
      | e :: rest2 =>
        if e = 'u' then
          match rest2 with
          | h1 :: h2 :: h3 :: h4 :: rest3 =>
            match hexVal h1, hexVal h2, hexVal h3, hexVal h4 with
            | some a, some b, some c2, some d =>
              (parseStrChars rest3).map fun pr =>
                (Char.ofNat (((a * 16 + b) * 16 + c2) * 16 + d) :: pr.fst, pr.snd)
            | _, _, _, _ => none
          | _ => none
        else
          match escMap e with
          | some d => (parseStrChars rest2).map fun pr => (d :: pr.fst, pr.snd)
          | none => none
    else if c.toNat < 32 then none
    else (parseStrChars rest).map fun pr => (c :: pr.fst, pr.snd)

/-- Parse the comma-separated items of a non-empty JSON array up to and
including the closing bracket, the item parser being passed in.  The fuel
bounds the number of items. -/
def parseListLoop (pItem : List Char → Option (JVal × List Char)) :
    Nat → List Char → Option (List JVal × List Char)
  | 0, _ => none
  | fuel + 1, l =>
    match pItem l with
    | none => none
    | some (v, r) =>
      match skipWs r with
      | [] => none
      | c :: r2 =>
        if c = ',' then
          match parseListLoop pItem fuel (skipWs r2) with
          | some (vs, r3) => some (v :: vs, r3)
          | none => none
        else if c = ']' then some ([v], r2)
        else none

/-- Parse the members of a non-empty JSON object up to and including the
closing brace, the value parser being passed in. -/
def parseObjLoop (pItem : List Char → Option (JVal × List Char)) :
    Nat → List Char → Option (List (String × JVal) × List Char)
  | 0, _ => none
  | fuel + 1, l =>
    match skipWs l with
    | [] => none
    | c :: r0 =>
      if c = '"' then
        match parseStrChars r0 with
        | none => none
        | some (k, r) =>
          match skipWs r with
          | [] => none
          | d :: r2 =>
            if d = ':' then
              match pItem (skipWs r2) with
              | none => none
              | some (v, r3) =>
                match skipWs r3 with
                | [] => none
                | e :: r4 =>
                  if e = ',' then
                    match parseObjLoop pItem fuel r4 with
                    | some (ms, r5) => some ((String.mk k, v) :: ms, r5)
                    | none => none
                  else if e = rbChar then some ([(String.mk k, v)], r4)
                  else none
            else none
      else none

/-- Parse one JSON value of the modelled fragment, returning it and the
rest of the input. -/
def parseJ : Nat → List Char → Option (JVal × List Char)
  | 0, _ => none
  | fuel + 1, l =>
    match skipWs l with
    | [] => none
    | c :: rest =>
      if c = '"' then
        match parseStrChars rest with
        | some (cs, r) => some (.str (String.mk cs), r)
        | none => none
      else if c = 't' then
        match rest with
        | 'r' :: 'u' :: 'e' :: r => some (.jbool true, r)
        | _ => none
      else if c = 'f' then
        match rest with
        | 'a' :: 'l' :: 's' :: 'e' :: r => some (.jbool false, r)
        | _ => none
      else if c = 'n' then
        match rest with
        | 'u' :: 'l' :: 'l' :: r => some (.null, r)
        | _ => none
      else if c = '[' then
        match skipWs rest with
        | [] => none
        | d :: r2 =>
          if d = ']' then some (.arr [], r2)
          else
            match parseListLoop (parseJ fuel) fuel (d :: r2) with
            | some (vs, r3) => some (.arr vs, r3)
            | none => none
      else if c = lbChar then
        match skipWs rest with
        | [] => none
        | d :: r2 =>
          if d = rbChar then some (.obj [], r2)
          else
            match parseObjLoop (parseJ fuel) fuel (d :: r2) with
            | some (ms, r3) => some (.obj ms, r3)
            | none => none
      else none

/-- `JSON.parse` on a whole string: one value, then only whitespace may
remain. -/
def parseJson (s : String) : Option JVal :=
  match parseJ (s.data.length + 1) s.data with
  | some (v, r) => if (skipWs r).isEmpty then some v else none
  | none => none

end MCP

namespace MCP

/-! ### Decoding (src/components/ServerForm.tsx lines 73-93) -/

/-- Look a key up in parsed object members; `JSON.parse` keeps the last
of duplicate keys, hence the reversal. -/
def jlookup (ms : List (String × JVal)) (k : String) : Option JVal :=
  (ms.reverse.find? fun m => m.fst == k).map fun m => m.snd

/-- Property access on a parsed JSON value: defined members of objects,
`none` (JavaScript `undefined`) everywhere else. -/
def jget (v : JVal) (k : String) : Option JVal :=
  match v with
  | .obj ms => jlookup ms k
  | _ => none

/-- A string-valued property; non-string values are outside the payloads
the codec produces and read as absent. -/
def jgetStr (v : JVal) (k : String) : Option String :=
  match jget v k with
  | some (.str s) => some s
  | _ => none

/-- A boolean-valued property, same convention. -/
def jgetBool (v : JVal) (k : String) : Option Bool :=
  match jget v k with
  | some (.jbool b) => some b
  | _ => none

/-- One step of the decode mapping (src/components/ServerForm.tsx lines
79-89): `id` is the array position; `index`, `code`, `endpoint`,
`description` fall back to the empty string, `method` to GET (also when
the stored method is the empty string, which is falsy); `params` is
completed from `defaultParams`.  A `null` element makes the property
access throw, aborting the whole decode, hence `none`. -/
def mkFormTool (idx : Nat) (v : JVal) : Option FormTool :=
  match v with
  | .null => none
  | _ =>
    let m := (jgetStr v "method").getD ""
    some
      { id := idx,
        name := (jgetStr v "name").getD "",
        type := (jgetStr v "type").getD "",
        index := (jgetStr v "index").getD "",
        code := some ((jgetStr v "code").getD ""),
        method := some (if m = "" then "GET" else m),
        endpoint := some ((jgetStr v "endpoint").getD ""),
        description := (jgetStr v "description").getD "",
        params :=
          { skip := ((jget v "params").bind fun p => jgetBool p "skip").getD false,
            top := ((jget v "params").bind fun p => jgetBool p "top").getD false,
            facet := ((jget v "params").bind fun p => jgetBool p "facet").getD false,
            filter := ((jget v "params").bind fun p => jgetBool p "filter").getD false } }

/-- Decode the JSON payload: it must parse to an array (anything else
makes the `.map` call throw), and every element is mapped with its
position. -/
def decodeToolsJson (s : String) : Option (List FormTool) :=
  match parseJson s with
  | some (.arr l) => l.enum.mapM fun p => mkFormTool p.fst p.snd
  | _ => none

/-! ### The capture regex

Both `--tools '([^']+)'` (src/components/ServerForm.tsx line 74) and
`from the '([^']+)' index` (line 97) are a literal prefix, a non-empty
apostrophe-free capture, and a literal tail beginning with an apostrophe.
At a given start position the greedy capture runs exactly to the next
apostrophe and no backtracking can help, so the engine advances the start
position by one and retries; the scan below is that procedure. -/

/-- Attempt the pattern at the head of the input. -/
def matchCapAt (pre post l : List Char) : Option (List Char) :=
  if pre.isPrefixOf l then
    let r := l.drop pre.length
    let seg := r.takeWhile fun c => c ≠ apos
    if seg.isEmpty then none
    else if post.isPrefixOf (r.drop seg.length) then some seg
    else none
  else none

/-- Scan for the first position where the pattern matches. -/
def scanCap (pre post : List Char) : List Char → Option (List Char)
  | [] => none
  | c :: rest =>
    match matchCapAt pre post (c :: rest) with
    | some s => some s
    | none => scanCap pre post rest

/-- The literal prefix of the `--tools` pattern. -/
def patTools : List Char := "--tools ".data ++ [apos]

/-- The match of the tools pattern on the command, capture extracted. -/
def extractToolsArg (cmd : String) : Option String :=
  (scanCap patTools [apos] cmd.data).map String.mk

/-- The canonical decode path `commandToTools`: extract the quoted JSON
after `--tools` and decode it; any failure (no match, parse error, not an
array, a null element) yields `none`, which the edit-load turns into the
fallback. -/
def commandToTools (command : String) : Option (List FormTool) :=
  match extractToolsArg command with
  | some js => decodeToolsJson js
  | none => none

/-! ### The heuristic fallback (src/components/ServerForm.tsx lines
95-122) -/

/-- The capture of `description.match(/from the '([^']+)' index/)`. -/
def findIndexCapture (s : String) : Option String :=
  (scanCap ("from the ".data ++ [apos]) (apos :: " index".data) s.data).map String.mk

/-- The capture of `description.match(/using (Azure AI Search|Neo4j)/)`. -/
def findTypeCapture : List Char → Option String
  | [] => none
  | c :: rest =>
    if ("using Azure AI Search".data).isPrefixOf (c :: rest) then some "Azure AI Search"
    else if ("using Neo4j".data).isPrefixOf (c :: rest) then some "Neo4j"
    else findTypeCapture rest

/-- Rebuild an approximate tool list from the rendered `Tool` records:
index and backend type are pattern-matched out of the description, the
optional parameters inferred from the argument names; tools recovering no
index are dropped (the heuristic never produces the python or rest-api
types, so the filter reduces to a non-empty index). -/
def heuristicTools (tl : List Tool) : List FormTool :=
  (tl.enum.map fun p =>
    let tool := p.snd
    let indexMatch := findIndexCapture tool.description
    let typeM := findTypeCapture tool.description.data
    let ttype : String := if typeM = some "Neo4j" then "neo4j" else "azure"
    let hasArg : String → Bool := fun n => tool.args.any fun a => a.name == n
    { id := p.fst, name := tool.name, type := ttype,
      index := indexMatch.getD "",
      code := none, method := none, endpoint := none,
      description := tool.description,
      params := { skip := hasArg "skip", top := hasArg "top" || hasArg "top_k",
                  facet := hasArg "facet", filter := hasArg "filter" } })
    |>.filter fun t => !t.index.isEmpty || t.type == "python" || t.type == "rest-api"

/-- The whole edit-load decode (src/components/ServerForm.tsx lines
72-126): try the canonical path; when it recovers nothing and the record
renders tools, fall back to the heuristic; otherwise the form gets the
empty list. -/
def editLoadTools (command : String) (tools : Option (List Tool)) : List FormTool :=
  let parsed := (commandToTools command).getD []
  if parsed.isEmpty then
    match tools with
    | some tl => heuristicTools tl
    | none => parsed
  else parsed

end MCP

namespace MCP

/-! ### Round-trip lemmas: string escaping -/

/-- Hex digits serialize and re-parse to their value. -/
theorem hexVal_hexDigitChar : ∀ n < 16, hexVal (hexDigitChar n) = some n := by
  decide

/-- A two-character named escape parses to its decoded character. -/
theorem parseStrChars_esc (e d : Char) (he : escMap e = some d) (hu : e ≠ 'u')
    (L : List Char) :
    parseStrChars ('\\' :: e :: L) =
      (parseStrChars L).map fun pr => (d :: pr.fst, pr.snd) := by
  rw [parseStrChars.eq_def]
  simp [hu, he]

/-- A plain character parses to itself. -/
theorem parseStrChars_plain (c : Char) (h1 : c ≠ '"') (h2 : c ≠ '\\')
    (h3 : ¬ c.toNat < 32) (L : List Char) :
    parseStrChars (c :: L) =
      (parseStrChars L).map fun pr => (c :: pr.fst, pr.snd) := by
  rw [parseStrChars.eq_def]
  simp [h1, h2, h3]

/-- A closing quote ends the string body. -/
theorem parseStrChars_quote (rest : List Char) :
    parseStrChars ('"' :: rest) = some ([], rest) := by
  rw [parseStrChars.eq_def]
  simp

/-- A `\u00xx` escape parses back to the control character. -/
theorem parseStrChars_u (n : Nat) (h : n < 32) (L : List Char) :
    parseStrChars ('\\' :: 'u' :: '0' :: '0' ::
        hexDigitChar (n / 16) :: hexDigitChar (n % 16) :: L) =
      (parseStrChars L).map fun pr => (Char.ofNat n :: pr.fst, pr.snd) := by
  have hd : hexVal (hexDigitChar (n / 16)) = some (n / 16) :=
    hexVal_hexDigitChar _ (by omega)
  have hm : hexVal (hexDigitChar (n % 16)) = some (n % 16) :=
    hexVal_hexDigitChar _ (by omega)
  have h0 : hexVal '0' = some 0 := by decide
  rw [parseStrChars.eq_def]
  simp only [h0, hd, hm]
  rw [show ((0 * 16 + 0) * 16 + n / 16) * 16 + n % 16 = n by omega]
  simp

/-- The branch values of `escapeChar` under the branch conditions. -/
theorem escapeChar_u (c : Char) (h1 : c ≠ '"') (h2 : c ≠ '\\')
    (h3 : c ≠ Char.ofNat 8) (h4 : c ≠ Char.ofNat 9) (h5 : c ≠ Char.ofNat 10)
    (h6 : c ≠ Char.ofNat 12) (h7 : c ≠ Char.ofNat 13) (h8 : c.toNat < 32) :
    escapeChar c =
      ['\\', 'u', '0', '0', hexDigitChar (c.toNat / 16), hexDigitChar (c.toNat % 16)] := by
  unfold escapeChar
  simp [h1, h2, h3, h4, h5, h6, h7, h8]

/-- A character needing no escape is emitted verbatim. -/
theorem escapeChar_id (c : Char) (h1 : c ≠ '"') (h2 : c ≠ '\\')
    (h8 : ¬ c.toNat < 32) :
    escapeChar c = [c] := by
  have h3 : c ≠ Char.ofNat 8 := by intro h; subst h; exact h8 (by decide)
  have h4 : c ≠ Char.ofNat 9 := by intro h; subst h; exact h8 (by decide)
  have h5 : c ≠ Char.ofNat 10 := by intro h; subst h; exact h8 (by decide)
  have h6 : c ≠ Char.ofNat 12 := by intro h; subst h; exact h8 (by decide)
  have h7 : c ≠ Char.ofNat 13 := by intro h; subst h; exact h8 (by decide)
  unfold escapeChar
  simp [h1, h2, h3, h4, h5, h6, h7, h8]

/-- The body of a serialized JSON string parses back to the original
characters, leaving the input after the closing quote untouched. -/
theorem parseStrChars_escape :
    ∀ (cs rest : List Char),
      parseStrChars (cs.flatMap escapeChar ++ '"' :: rest) = some (cs, rest)
  | [], rest => by
    simpa using parseStrChars_quote rest
  | c :: cs, rest => by
    have ih := parseStrChars_escape cs rest
    show parseStrChars ((escapeChar c ++ cs.flatMap escapeChar) ++ '"' :: rest) = _
    rw [List.append_assoc]
    by_cases h1 : c = '"'
    · subst h1
      rw [show escapeChar '"' = ['\\', '"'] from by decide]
      rw [show (['\\', '"'] : List Char) ++ (cs.flatMap escapeChar ++ '"' :: rest) =
            '\\' :: '"' :: (cs.flatMap escapeChar ++ '"' :: rest) from rfl]
      rw [parseStrChars_esc '"' '"' (by decide) (by decide), ih]
      rfl
    by_cases h2 : c = '\\'
    · subst h2
      rw [show escapeChar '\\' = ['\\', '\\'] from by decide]
      rw [show (['\\', '\\'] : List Char) ++ (cs.flatMap escapeChar ++ '"' :: rest) =
            '\\' :: '\\' :: (cs.flatMap escapeChar ++ '"' :: rest) from rfl]
      rw [parseStrChars_esc '\\' '\\' (by decide) (by decide), ih]
      rfl
    by_cases h3 : c = Char.ofNat 8
    · subst h3
      rw [show escapeChar (Char.ofNat 8) = ['\\', 'b'] from by decide]
      rw [show (['\\', 'b'] : List Char) ++ (cs.flatMap escapeChar ++ '"' :: rest) =
            '\\' :: 'b' :: (cs.flatMap escapeChar ++ '"' :: rest) from rfl]
      rw [parseStrChars_esc 'b' (Char.ofNat 8) (by decide) (by decide), ih]
      rfl
    by_cases h4 : c = Char.ofNat 9
    · subst h4
      rw [show escapeChar (Char.ofNat 9) = ['\\', 't'] from by decide]
      rw [show (['\\', 't'] : List Char) ++ (cs.flatMap escapeChar ++ '"' :: rest) =
            '\\' :: 't' :: (cs.flatMap escapeChar ++ '"' :: rest) from rfl]
      rw [parseStrChars_esc 't' (Char.ofNat 9) (by decide) (by decide), ih]
      rfl
    by_cases h5 : c = Char.ofNat 10
    · subst h5
      rw [show escapeChar (Char.ofNat 10) = ['\\', 'n'] from by decide]
      rw [show (['\\', 'n'] : List Char) ++ (cs.flatMap escapeChar ++ '"' :: rest) =
            '\\' :: 'n' :: (cs.flatMap escapeChar ++ '"' :: rest) from rfl]
      rw [parseStrChars_esc 'n' (Char.ofNat 10) (by decide) (by decide), ih]
      rfl
    by_cases h6 : c = Char.ofNat 12
    · subst h6
      rw [show escapeChar (Char.ofNat 12) = ['\\', 'f'] from by decide]
      rw [show (['\\', 'f'] : List Char) ++ (cs.flatMap escapeChar ++ '"' :: rest) =
            '\\' :: 'f' :: (cs.flatMap escapeChar ++ '"' :: rest) from rfl]
      rw [parseStrChars_esc 'f' (Char.ofNat 12) (by decide) (by decide), ih]
      rfl
    by_cases h7 : c = Char.ofNat 13
    · subst h7
      rw [show escapeChar (Char.ofNat 13) = ['\\', 'r'] from by decide]
      rw [show (['\\', 'r'] : List Char) ++ (cs.flatMap escapeChar ++ '"' :: rest) =
            '\\' :: 'r' :: (cs.flatMap escapeChar ++ '"' :: rest) from rfl]
      rw [parseStrChars_esc 'r' (Char.ofNat 13) (by decide) (by decide), ih]
      rfl
    by_cases h8 : c.toNat < 32
    · rw [escapeChar_u c h1 h2 h3 h4 h5 h6 h7 h8]
      rw [show ('\\' :: 'u' :: '0' :: '0' ::
            hexDigitChar (c.toNat / 16) :: hexDigitChar (c.toNat % 16) :: [])
            ++ (cs.flatMap escapeChar ++ '"' :: rest) =
          '\\' :: 'u' :: '0' :: '0' :: hexDigitChar (c.toNat / 16) ::
            hexDigitChar (c.toNat % 16) :: (cs.flatMap escapeChar ++ '"' :: rest)
          from rfl]
      rw [parseStrChars_u c.toNat h8, ih]
      simp [Char.ofNat_toNat]
    · rw [escapeChar_id c h1 h2 h8]
      rw [show ([c] : List Char) ++ (cs.flatMap escapeChar ++ '"' :: rest) =
            c :: (cs.flatMap escapeChar ++ '"' :: rest) from rfl]
      rw [parseStrChars_plain c h1 h2 h8, ih]
      rfl

end MCP

namespace MCP

theorem skipWs_cons (c : Char) (h : isWsChar c = false) (l : List Char) :
    skipWs (c :: l) = c :: l := by
  simp [skipWs, List.dropWhile, h]

theorem jstrData_append (s : String) (r : List Char) :
    jstrData s ++ r = '"' :: (s.data.flatMap escapeChar ++ '"' :: r) := by
  simp [jstrData]

theorem parseJ_quote (fuel : Nat) (r : List Char) :
    parseJ (fuel + 1) ('"' :: r) =
      match parseStrChars r with
      | some (cs, rr) => some (.str (String.mk cs), rr)
      | none => none := rfl

theorem parseJ_true (fuel : Nat) (r : List Char) :
    parseJ (fuel + 1) ('t' :: 'r' :: 'u' :: 'e' :: r) = some (.jbool true, r) := rfl

theorem parseJ_false (fuel : Nat) (r : List Char) :
    parseJ (fuel + 1) ('f' :: 'a' :: 'l' :: 's' :: 'e' :: r) = some (.jbool false, r) := rfl

theorem parseJ_lbrak (fuel : Nat) (r : List Char) :
    parseJ (fuel + 1) ('[' :: r) =
      (match skipWs r with
       | [] => none
       | d :: r2 =>
         if d = ']' then some (.arr [], r2)
         else
           match parseListLoop (parseJ fuel) fuel (d :: r2) with
           | some (vs, r3) => some (.arr vs, r3)
           | none => none) := rfl

theorem parseJ_lbrace (fuel : Nat) (r : List Char) :
    parseJ (fuel + 1) (lbChar :: r) =
      (match skipWs r with
       | [] => none
       | d :: r2 =>
         if d = rbChar then some (.obj [], r2)
         else
           match parseObjLoop (parseJ fuel) fuel (d :: r2) with
           | some (ms, r3) => some (.obj ms, r3)
           | none => none) := rfl

theorem parseJ_str (fuel : Nat) (s : String) (rest : List Char) :
    parseJ (fuel + 1) (jstrData s ++ rest) = some (.str s, rest) := by
  rw [jstrData_append, parseJ_quote, parseStrChars_escape]

theorem parseJ_bool (fuel : Nat) (b : Bool) (rest : List Char) :
    parseJ (fuel + 1) (jboolData b ++ rest) = some (.jbool b, rest) := by
  cases b
  · exact parseJ_false fuel rest
  · exact parseJ_true fuel rest

end MCP

namespace MCP

theorem parseObjLoop_quote (pItem : List Char → Option (JVal × List Char)) (g : Nat)
    (r0 : List Char) :
    parseObjLoop pItem (g + 1) ('"' :: r0) =
      match parseStrChars r0 with
      | none => none
      | some (k, r) =>
        match skipWs r with
        | [] => none
        | d :: r2 =>
          if d = ':' then
            match pItem (skipWs r2) with
            | none => none
            | some (v, r3) =>
              match skipWs r3 with
              | [] => none
              | e :: r4 =>
                if e = ',' then
                  match parseObjLoop pItem g r4 with
                  | some (ms, r5) => some ((String.mk k, v) :: ms, r5)
                  | none => none
                else if e = rbChar then some ([(String.mk k, v)], r4)
                else none
          else none := rfl

theorem parseObjLoop_cons (pItem : List Char → Option (JVal × List Char)) (g : Nat)
    (k : String) (vs : List Char) (vv : JVal) (rest : List Char)
    (hv : ∀ r, pItem (vs ++ r) = some (vv, r))
    (hw : ∀ X, skipWs (vs ++ X) = vs ++ X) :
    parseObjLoop pItem (g + 1) (jstrData k ++ ':' :: (vs ++ ',' :: rest)) =
      match parseObjLoop pItem g rest with
      | some (ms, r5) => some ((k, vv) :: ms, r5)
      | none => none := by
  rw [jstrData_append, parseObjLoop_quote, parseStrChars_escape]
  dsimp only []
  rw [skipWs_cons ':' (by decide)]
  dsimp only []
  rw [if_pos rfl, hw, hv]
  dsimp only []
  rw [skipWs_cons ',' (by decide)]
  dsimp only []
  rw [if_pos rfl]

theorem parseObjLoop_last (pItem : List Char → Option (JVal × List Char)) (g : Nat)
    (k : String) (vs : List Char) (vv : JVal) (rest : List Char)
    (hv : ∀ r, pItem (vs ++ r) = some (vv, r))
    (hw : ∀ X, skipWs (vs ++ X) = vs ++ X) :
    parseObjLoop pItem (g + 1) (jstrData k ++ ':' :: (vs ++ rbChar :: rest)) =
      some ([(k, vv)], rest) := by
  rw [jstrData_append, parseObjLoop_quote, parseStrChars_escape]
  dsimp only []
  rw [skipWs_cons ':' (by decide)]
  dsimp only []
  rw [if_pos rfl, hw, hv]
  dsimp only []
  rw [skipWs_cons rbChar (by decide)]
  dsimp only []
  rw [if_neg (by decide), if_pos rfl]

end MCP

namespace MCP

/-- The parsed form of a serialized `params` object. -/
def paramsJ (p : ToolParams) : JVal :=
  .obj [("skip", .jbool p.skip), ("top", .jbool p.top),
        ("facet", .jbool p.facet), ("filter", .jbool p.filter)]

theorem skipWs_jstr (s : String) (r : List Char) :
    skipWs (jstrData s ++ r) = jstrData s ++ r := by
  rw [jstrData_append]
  exact skipWs_cons '"' (by decide) _

theorem skipWs_jbool (b : Bool) (X : List Char) :
    skipWs (jboolData b ++ X) = jboolData b ++ X := by
  cases b
  · exact skipWs_cons 'f' (by decide) _
  · exact skipWs_cons 't' (by decide) _

theorem paramsChars_eq (p : ToolParams) (rest : List Char) :
    paramsChars p ++ rest =
      lbChar :: (jstrData "skip" ++ ':' :: (jboolData p.skip ++ ',' ::
        (jstrData "top" ++ ':' :: (jboolData p.top ++ ',' ::
        (jstrData "facet" ++ ':' :: (jboolData p.facet ++ ',' ::
        (jstrData "filter" ++ ':' :: (jboolData p.filter ++ rbChar :: rest)))))))) := by
  simp [paramsChars]

theorem parseJ_params (g : Nat) (p : ToolParams) (rest : List Char) :
    parseJ (g + 5) (paramsChars p ++ rest) = some (paramsJ p, rest) := by
  rw [paramsChars_eq, show g + 5 = (g + 4) + 1 from rfl, parseJ_lbrace]
  rw [skipWs_jstr, jstrData_append]
  dsimp only []
  rw [if_neg (by decide), ← jstrData_append]
  rw [show g + 4 = (g + 3) + 1 from rfl]
  rw [parseObjLoop_cons _ _ _ (jboolData p.skip) (.jbool p.skip) _
    (fun r => parseJ_bool (g + 3) p.skip r) (skipWs_jbool p.skip)]
  rw [show g + 3 = (g + 2) + 1 from rfl]
  rw [parseObjLoop_cons _ _ _ (jboolData p.top) (.jbool p.top) _
    (fun r => parseJ_bool (g + 3) p.top r) (skipWs_jbool p.top)]
  rw [show g + 2 = (g + 1) + 1 from rfl]
  rw [parseObjLoop_cons _ _ _ (jboolData p.facet) (.jbool p.facet) _
    (fun r => parseJ_bool (g + 3) p.facet r) (skipWs_jbool p.facet)]
  rw [show g + 1 = g + 1 from rfl]
  rw [parseObjLoop_last _ _ _ (jboolData p.filter) (.jbool p.filter) _
    (fun r => parseJ_bool (g + 3) p.filter r) (skipWs_jbool p.filter)]
  rfl

end MCP

namespace MCP

/-- The parsed members contributed by an optional string field. -/
def optMemberJ (k : String) : Option String → List (String × JVal)
  | none => []
  | some v => [(k, JVal.str v)]

/-- The parsed form of a serialized tool object. -/
def toolJ (t : FormTool) : JVal :=
  .obj ([("name", .str t.name), ("type", .str t.type), ("index", .str t.index)]
    ++ optMemberJ "code" t.code ++ optMemberJ "method" t.method
    ++ optMemberJ "endpoint" t.endpoint
    ++ [("description", .str t.description), ("params", paramsJ t.params)])

theorem skipWs_params (p : ToolParams) (X : List Char) :
    skipWs (paramsChars p ++ X) = paramsChars p ++ X := by
  rw [paramsChars_eq]
  exact skipWs_cons lbChar (by decide) _

theorem toolChars_eq (t : FormTool) (c m e : String)
    (hc : t.code = some c) (hm : t.method = some m) (he : t.endpoint = some e)
    (rest : List Char) :
    toolChars t ++ rest =
      lbChar :: (jstrData "name" ++ ':' :: (jstrData t.name ++ ',' ::
        (jstrData "type" ++ ':' :: (jstrData t.type ++ ',' ::
        (jstrData "index" ++ ':' :: (jstrData t.index ++ ',' ::
        (jstrData "code" ++ ':' :: (jstrData c ++ ',' ::
        (jstrData "method" ++ ':' :: (jstrData m ++ ',' ::
        (jstrData "endpoint" ++ ':' :: (jstrData e ++ ',' ::
        (jstrData "description" ++ ':' :: (jstrData t.description ++ ',' ::
        (jstrData "params" ++ ':' ::
          (paramsChars t.params ++ rbChar :: rest)))))))))))))))) := by
  rw [show toolChars t =
    lbChar :: (jstrData "name" ++ ':' :: jstrData t.name)
      ++ ',' :: (jstrData "type" ++ ':' :: jstrData t.type)
      ++ ',' :: (jstrData "index" ++ ':' :: jstrData t.index)
      ++ optMemberChars "code" t.code
      ++ optMemberChars "method" t.method
      ++ optMemberChars "endpoint" t.endpoint
      ++ ',' :: (jstrData "description" ++ ':' :: jstrData t.description)
      ++ ',' :: (jstrData "params" ++ ':' :: paramsChars t.params)
      ++ [rbChar] from rfl]
  rw [hc, hm, he]
  simp [optMemberChars]

theorem parseJ_tool (g : Nat) (t : FormTool) (c m e : String)
    (hc : t.code = some c) (hm : t.method = some m) (he : t.endpoint = some e)
    (rest : List Char) :
    parseJ (g + 9) (toolChars t ++ rest) = some (toolJ t, rest) := by
  rw [toolChars_eq t c m e hc hm he, show g + 9 = (g + 8) + 1 from rfl, parseJ_lbrace]
  rw [skipWs_jstr, jstrData_append]
  dsimp only []
  rw [if_neg (by decide), ← jstrData_append]
  rw [show g + 8 = (g + 7) + 1 from rfl]
  rw [parseObjLoop_cons _ _ _ (jstrData t.name) (.str t.name) _
    (fun r => parseJ_str (g + 7) t.name r) (skipWs_jstr t.name)]
  rw [show g + 7 = (g + 6) + 1 from rfl]
  rw [parseObjLoop_cons _ _ _ (jstrData t.type) (.str t.type) _
    (fun r => parseJ_str (g + 7) t.type r) (skipWs_jstr t.type)]
  rw [show g + 6 = (g + 5) + 1 from rfl]
  rw [parseObjLoop_cons _ _ _ (jstrData t.index) (.str t.index) _
    (fun r => parseJ_str (g + 7) t.index r) (skipWs_jstr t.index)]
  rw [show g + 5 = (g + 4) + 1 from rfl]
  rw [parseObjLoop_cons _ _ _ (jstrData c) (.str c) _
    (fun r => parseJ_str (g + 7) c r) (skipWs_jstr c)]
  rw [show g + 4 = (g + 3) + 1 from rfl]
  rw [parseObjLoop_cons _ _ _ (jstrData m) (.str m) _
    (fun r => parseJ_str (g + 7) m r) (skipWs_jstr m)]
  rw [show g + 3 = (g + 2) + 1 from rfl]
  rw [parseObjLoop_cons _ _ _ (jstrData e) (.str e) _
    (fun r => parseJ_str (g + 7) e r) (skipWs_jstr e)]
  rw [show g + 2 = (g + 1) + 1 from rfl]
  rw [parseObjLoop_cons _ _ _ (jstrData t.description) (.str t.description) _
    (fun r => parseJ_str (g + 7) t.description r) (skipWs_jstr t.description)]
  rw [parseObjLoop_last _ _ _ (paramsChars t.params) (paramsJ t.params) _
    (fun r => parseJ_params (g + 3) t.params r) (skipWs_params t.params)]
  simp [toolJ, optMemberJ, hc, hm, he]

end MCP

namespace MCP

theorem parseListLoop_succ (pItem : List Char → Option (JVal × List Char))
    (fuel : Nat) (l : List Char) :
    parseListLoop pItem (fuel + 1) l =
      match pItem l with
      | none => none
      | some (v, r) =>
        match skipWs r with
        | [] => none
        | c :: r2 =>
          if c = ',' then
            match parseListLoop pItem fuel (skipWs r2) with
            | some (vs, r3) => some (v :: vs, r3)
            | none => none
          else if c = ']' then some ([v], r2)
          else none := rfl

/-- A normal-form tool: the three optional fields are present and the
method is non-empty (an empty stored method is falsy and would decode to
GET). -/
def normTool (t : FormTool) : Prop :=
  ∃ c m e, t.code = some c ∧ t.method = some m ∧ m ≠ "" ∧ t.endpoint = some e

theorem skipWs_append_head (l X : List Char) (c : Char) (tail : List Char)
    (hl : l = c :: tail) (hc : isWsChar c = false) :
    skipWs (l ++ X) = l ++ X := by
  subst hl
  rw [List.cons_append]
  exact skipWs_cons c hc _

theorem toolChars_head (t : FormTool) : ∃ tail, toolChars t = lbChar :: tail :=
  ⟨_, rfl⟩

theorem commaJoin_tools_cons (t t' : FormTool) (ts'' : List FormTool) :
    commaJoin ((t :: t' :: ts'').map toolChars) =
      toolChars t ++ ',' :: commaJoin ((t' :: ts'').map toolChars) := rfl

theorem skipWs_tools (ts : List FormTool) (hne : ts ≠ []) (X : List Char) :
    skipWs (commaJoin (ts.map toolChars) ++ X) = commaJoin (ts.map toolChars) ++ X := by
  match ts, hne with
  | [t], _ =>
    obtain ⟨tail, htail⟩ := toolChars_head t
    exact skipWs_append_head _ _ _ _ htail (by decide)
  | t :: t' :: ts'', _ =>
    obtain ⟨tail, htail⟩ := toolChars_head t
    rw [commaJoin_tools_cons, List.append_assoc]
    exact skipWs_append_head _ _ _ _ htail (by decide)

theorem parseListLoop_tools :
    ∀ (ts : List FormTool) (f F : Nat) (rest : List Char), ts ≠ [] →
      (∀ t ∈ ts, normTool t) → ts.length ≤ F →
      parseListLoop (parseJ (f + 9)) F (commaJoin (ts.map toolChars) ++ ']' :: rest) =
        some (ts.map toolJ, rest)
  | [t], f, F, rest, _, hnorm, hF => by
    obtain ⟨F', rfl⟩ : ∃ F', F = F' + 1 := ⟨F - 1, by simp at hF; omega⟩
    obtain ⟨c, m, e, hc, hm, hme, he⟩ := hnorm t (by simp)
    show parseListLoop (parseJ (f + 9)) (F' + 1) (toolChars t ++ ']' :: rest) = _
    rw [parseListLoop_succ, parseJ_tool f t c m e hc hm he]
    dsimp only []
    rw [skipWs_cons ']' (by decide)]
    dsimp only []
    rw [if_neg (by decide), if_pos rfl]
    rfl
  | t :: t' :: ts'', f, F, rest, _, hnorm, hF => by
    obtain ⟨F', rfl⟩ : ∃ F', F = F' + 1 := ⟨F - 1, by simp at hF; omega⟩
    obtain ⟨c, m, e, hc, hm, hme, he⟩ := hnorm t (by simp)
    have ih := parseListLoop_tools (t' :: ts'') f F' rest (by simp)
      (fun u hu => hnorm u (by simp [hu])) (by simp at hF ⊢; omega)
    rw [commaJoin_tools_cons, List.append_assoc, List.cons_append]
    rw [parseListLoop_succ, parseJ_tool f t c m e hc hm he]
    dsimp only []
    rw [skipWs_cons ',' (by decide)]
    dsimp only []
    rw [if_pos rfl, skipWs_tools (t' :: ts'') (by simp), ih]
    rfl

theorem toolChars_length (t : FormTool) : 7 ≤ (toolChars t).length := by
  have h6 : (jstrData "name").length = 6 := rfl
  simp [toolChars, List.length_append, h6]

theorem commaJoin_tools_length :
    ∀ ts : List FormTool, ts ≠ [] →
      ts.length + 6 ≤ (commaJoin (ts.map toolChars)).length
  | [t], _ => by
    have := toolChars_length t
    show 1 + 6 ≤ (toolChars t).length
    omega
  | t :: t' :: ts'', _ => by
    have ih := commaJoin_tools_length (t' :: ts'') (by simp)
    have ht := toolChars_length t
    rw [commaJoin_tools_cons]
    simp only [List.length_append, List.length_cons, List.length_map] at ih ⊢
    simp at ih ⊢
    omega

end MCP

namespace MCP

theorem parseJ_toolsArr (f : Nat) (ts : List FormTool) (rest : List Char)
    (hnorm : ∀ t ∈ ts, normTool t) (hF : ts.length ≤ f + 9) :
    parseJ ((f + 9) + 1) ('[' :: (commaJoin (ts.map toolChars) ++ ']' :: rest)) =
      some (.arr (ts.map toolJ), rest) := by
  rw [parseJ_lbrak]
  cases ts with
  | nil =>
    show (match skipWs (']' :: rest) with
          | [] => none
          | d :: r2 =>
            if d = ']' then some (JVal.arr [], r2)
            else
              match parseListLoop (parseJ (f + 9)) (f + 9) (d :: r2) with
              | some (vs, r3) => some (.arr vs, r3)
              | none => none) = some (.arr [], rest)
    rw [skipWs_cons ']' (by decide)]
    dsimp only []
    rw [if_pos rfl]
  | cons t ts' =>
    rw [skipWs_tools (t :: ts') (by simp)]
    obtain ⟨tl, htl⟩ := toolChars_head t
    have hhead : ∃ tail, commaJoin ((t :: ts').map toolChars) ++ ']' :: rest =
        lbChar :: tail := by
      cases ts' with
      | nil =>
        refine ⟨tl ++ ']' :: rest, ?_⟩
        show toolChars t ++ ']' :: rest = _
        rw [htl, List.cons_append]
      | cons t' ts'' =>
        refine ⟨(tl ++ ',' :: commaJoin ((t' :: ts'').map toolChars)) ++ ']' :: rest, ?_⟩
        rw [commaJoin_tools_cons, htl]
        simp
    obtain ⟨tail, htail⟩ := hhead
    rw [htail]
    dsimp only []
    rw [if_neg (by decide), ← htail]
    rw [parseListLoop_tools (t :: ts') f (f + 9) rest (by simp) hnorm hF]

theorem parseJson_tools (ts : List FormTool) (hnorm : ∀ t ∈ ts, normTool t) :
    parseJson (stringifyTools ts) = some (.arr (ts.map toolJ)) := by
  cases ts with
  | nil => rfl
  | cons t ts' =>
    have hCJ := commaJoin_tools_length (t :: ts') (by simp)
    have h1 : 1 ≤ (t :: ts').length := by simp
    unfold parseJson
    have hD : (stringifyTools (t :: ts')).data =
        '[' :: (commaJoin ((t :: ts').map toolChars) ++ [']']) := by
      show ('[' :: commaJoin ((t :: ts').map toolChars)) ++ [']'] = _
      rw [List.cons_append]
    rw [hD]
    have hx : ('[' :: (commaJoin ((t :: ts').map toolChars) ++ [']'])).length =
        (commaJoin ((t :: ts').map toolChars)).length + 2 := by
      simp
    rw [show ('[' :: (commaJoin ((t :: ts').map toolChars) ++ [']'])).length + 1 =
        ((('[' :: (commaJoin ((t :: ts').map toolChars) ++ [']'])).length - 9) + 9) + 1
      from by rw [hx]; omega]
    rw [parseJ_toolsArr _ (t :: ts') [] hnorm (by rw [hx]; omega)]
    rfl

end MCP

namespace MCP

theorem mkFormTool_toolJ (k : Nat) (t : FormTool) (c m e : String)
    (hc : t.code = some c) (hm : t.method = some m) (hme : m ≠ "")
    (he : t.endpoint = some e) :
    mkFormTool k (toolJ t) = some { t with id := k } := by
  cases t with
  | mk id name type index code method endpoint description params =>
    dsimp only [] at hc hm he
    subst hc; subst hm; subst he
    rw [show mkFormTool k
        (toolJ ⟨id, name, type, index, some c, some m, some e, description, params⟩) =
      some ⟨k, name, type, index, some c, some (if m = "" then "GET" else m),
        some e, description, params⟩ from rfl]
    rw [if_neg hme]

theorem mapM_tools :
    ∀ (ts : List FormTool) (k : Nat), (∀ t ∈ ts, normTool t) →
      (∀ p ∈ ts.enumFrom k, (p.snd : FormTool).id = p.fst) →
      ((ts.map toolJ).enumFrom k).mapM (fun p => mkFormTool p.fst p.snd) = some ts
  | [], _, _, _ => rfl
  | t :: ts', k, hnorm, hid => by
    obtain ⟨c, m, e, hc, hm, hme, he⟩ := hnorm t (by simp)
    have hidt : t.id = k := hid (k, t) (by simp [List.enumFrom])
    have ih := mapM_tools ts' (k + 1) (fun u hu => hnorm u (by simp [hu]))
      (fun p hp => hid p (by simp [List.enumFrom, hp]))
    rw [show ((t :: ts').map toolJ).enumFrom k =
        (k, toolJ t) :: ((ts'.map toolJ).enumFrom (k + 1)) from rfl]
    rw [List.mapM_cons]
    simp only [mkFormTool_toolJ k t c m e hc hm hme he, ih, Option.bind_some,
      Option.pure_def, Option.bind_eq_bind, Option.some_bind]
    have : ({ t with id := k } : FormTool) = t := by
      cases t
      dsimp only [] at hidt
      rw [hidt]
    rw [this]

theorem decodeToolsJson_tools (ts : List FormTool)
    (hnorm : ∀ t ∈ ts, normTool t)
    (hid : ∀ p ∈ ts.enum, (p.snd : FormTool).id = p.fst) :
    decodeToolsJson (stringifyTools ts) = some ts := by
  unfold decodeToolsJson
  rw [parseJson_tools ts hnorm]
  exact mapM_tools ts 0 hnorm hid

end MCP

namespace MCP

/-! ### Apostrophe-freedom of the serialized payload -/

theorem nm_append {a : Char} {l₁ l₂ : List Char} (h1 : a ∉ l₁) (h2 : a ∉ l₂) :
    a ∉ l₁ ++ l₂ := by
  intro h
  rcases List.mem_append.mp h with h | h
  · exact h1 h
  · exact h2 h

theorem nm_cons {a b : Char} {l : List Char} (h1 : a ≠ b) (h2 : a ∉ l) :
    a ∉ b :: l := by
  intro h
  rcases List.mem_cons.mp h with h | h
  · exact h1 h
  · exact h2 h

theorem escapeChar_no_apos (c : Char) (h : c ≠ apos) : apos ∉ escapeChar c := by
  have hx : ∀ k < 16, hexDigitChar k ≠ apos := by decide
  unfold escapeChar
  split_ifs with h1 h2 h3 h4 h5 h6 h7 h8
  · decide
  · decide
  · decide
  · decide
  · decide
  · decide
  · decide
  · refine nm_cons (by decide) (nm_cons (by decide) (nm_cons (by decide)
      (nm_cons (by decide) (nm_cons ?_ (nm_cons ?_ (by simp))))))
    · exact fun hh => hx _ (by omega) hh.symm
    · exact fun hh => hx _ (by omega) hh.symm
  · exact nm_cons (fun hh => h hh.symm) (by simp)

theorem jstrData_no_apos (s : String) (h : apos ∉ s.data) : apos ∉ jstrData s := by
  refine nm_cons (by decide) (nm_append ?_ (by decide))
  intro hmem
  obtain ⟨a, ha, hmem2⟩ := List.mem_flatMap.mp hmem
  exact escapeChar_no_apos a (fun he => h (he ▸ ha)) hmem2

theorem jboolData_no_apos (b : Bool) : apos ∉ jboolData b := by
  cases b <;> decide

theorem paramsChars_no_apos (p : ToolParams) : apos ∉ paramsChars p := by
  cases p with
  | mk a b c d => cases a <;> cases b <;> cases c <;> cases d <;> decide

theorem optMemberChars_no_apos (k : String) (o : Option String)
    (hk : apos ∉ jstrData k) (ho : ∀ s, o = some s → apos ∉ s.data) :
    apos ∉ optMemberChars k o := by
  cases o with
  | none => simp [optMemberChars]
  | some v =>
    exact nm_cons (by decide)
      (nm_append hk (nm_cons (by decide) (jstrData_no_apos v (ho v rfl))))

theorem toolChars_no_apos (t : FormTool)
    (h1 : apos ∉ t.name.data) (h2 : apos ∉ t.type.data) (h3 : apos ∉ t.index.data)
    (h4 : ∀ s, t.code = some s → apos ∉ s.data)
    (h5 : ∀ s, t.method = some s → apos ∉ s.data)
    (h6 : ∀ s, t.endpoint = some s → apos ∉ s.data)
    (h7 : apos ∉ t.description.data) :
    apos ∉ toolChars t := by
  refine nm_append (nm_append (nm_append (nm_append (nm_append (nm_append
    (nm_append (nm_append ?_ ?_) ?_) ?_) ?_) ?_) ?_) ?_) (by decide)
  · exact nm_cons (by decide)
      (nm_append (by decide) (nm_cons (by decide) (jstrData_no_apos _ h1)))
  · exact nm_cons (by decide)
      (nm_append (by decide) (nm_cons (by decide) (jstrData_no_apos _ h2)))
  · exact nm_cons (by decide)
      (nm_append (by decide) (nm_cons (by decide) (jstrData_no_apos _ h3)))
  · exact optMemberChars_no_apos _ _ (by decide) h4
  · exact optMemberChars_no_apos _ _ (by decide) h5
  · exact optMemberChars_no_apos _ _ (by decide) h6
  · exact nm_cons (by decide)
      (nm_append (by decide) (nm_cons (by decide) (jstrData_no_apos _ h7)))
  · exact nm_cons (by decide)
      (nm_append (by decide) (nm_cons (by decide) (paramsChars_no_apos _)))

theorem commaJoin_no_apos :
    ∀ ls : List (List Char), (∀ l ∈ ls, apos ∉ l) → apos ∉ commaJoin ls
  | [], _ => by simp [commaJoin]
  | [x], h => by
    simpa [commaJoin] using h x (by simp)
  | x :: y :: t, h => by
    show apos ∉ x ++ ',' :: commaJoin (y :: t)
    exact nm_append (h x (by simp))
      (nm_cons (by decide)
        (commaJoin_no_apos (y :: t) (fun l hl => h l (by simp at hl ⊢; tauto))))

theorem stringifyTools_no_apos (ts : List FormTool)
    (h : ∀ t ∈ ts, apos ∉ t.name.data ∧ apos ∉ t.type.data ∧ apos ∉ t.index.data ∧
      (∀ s, t.code = some s → apos ∉ s.data) ∧
      (∀ s, t.method = some s → apos ∉ s.data) ∧
      (∀ s, t.endpoint = some s → apos ∉ s.data) ∧ apos ∉ t.description.data) :
    apos ∉ (stringifyTools ts).data := by
  show apos ∉ ('[' :: commaJoin (ts.map toolChars)) ++ [']']
  refine nm_append (nm_cons (by decide) ?_) (by decide)
  refine commaJoin_no_apos _ ?_
  intro l hl
  obtain ⟨t, ht, rfl⟩ := List.mem_map.mp hl
  obtain ⟨g1, g2, g3, g4, g5, g6, g7⟩ := h t ht
  exact toolChars_no_apos t g1 g2 g3 g4 g5 g6 g7

end MCP

namespace MCP

/-! ### The scan finds the tools capture -/

theorem isPrefixOf_append_left :
    ∀ (pre p l : List Char), pre.length ≤ p.length →
      pre.isPrefixOf (p ++ l) = pre.isPrefixOf p
  | [], p, l, _ => by simp [List.isPrefixOf]
  | a :: pre', [], l, h => by simp at h
  | a :: pre', b :: p', l, h => by
    show List.isPrefixOf (a :: pre') (b :: (p' ++ l)) = _
    simp only [List.isPrefixOf]
    rw [isPrefixOf_append_left pre' p' l (by simpa using h)]

theorem isPrefixOf_append_self :
    ∀ (pre X : List Char), pre.isPrefixOf (pre ++ X) = true
  | [], X => by simp [List.isPrefixOf]
  | a :: pre', X => by
    show List.isPrefixOf (a :: pre') (a :: (pre' ++ X)) = true
    simp only [List.isPrefixOf, isPrefixOf_append_self pre' X]
    simp

theorem matchCapAt_none (pre post p l : List Char) (hlen : pre.length ≤ p.length)
    (h : pre.isPrefixOf p = false) : matchCapAt pre post (p ++ l) = none := by
  unfold matchCapAt
  rw [isPrefixOf_append_left _ _ _ hlen, h]
  rfl

theorem scanCap_cons (pre post : List Char) (c : Char) (rest : List Char) :
    scanCap pre post (c :: rest) =
      match matchCapAt pre post (c :: rest) with
      | some s => some s
      | none => scanCap pre post rest := rfl

theorem scanCap_skip :
    ∀ (n : Nat) (pre post p l : List Char), n + pre.length ≤ p.length →
      (∀ i, i < n → pre.isPrefixOf (p.drop i) = false) →
      scanCap pre post (p ++ l) = scanCap pre post (p.drop n ++ l)
  | 0, pre, post, p, l, _, _ => by simp
  | n + 1, pre, post, p, l, hn, h => by
    obtain ⟨b, p', rfl⟩ : ∃ b p', p = b :: p' := by
      cases p with
      | nil => simp at hn
      | cons b p' => exact ⟨b, p', rfl⟩
    have hmc : matchCapAt pre post ((b :: p') ++ l) = none := by
      refine matchCapAt_none pre post (b :: p') l (by simp at hn ⊢; omega) ?_
      simpa using h 0 (by omega)
    rw [List.cons_append, scanCap_cons]
    rw [show (b :: (p' ++ l)) = (b :: p') ++ l from rfl, hmc]
    rw [show (b :: p').drop (n + 1) = p'.drop n from rfl]
    exact scanCap_skip n pre post p' l (by simp at hn ⊢; omega)
      (fun i hi => by simpa using h (i + 1) (by omega))

theorem takeWhile_all (p : Char → Bool) :
    ∀ (l₁ l₂ : List Char), (∀ c ∈ l₁, p c = true) →
      (l₁ ++ l₂).takeWhile p = l₁ ++ l₂.takeWhile p
  | [], l₂, _ => by simp
  | c :: l₁, l₂, h => by
    show (c :: (l₁ ++ l₂)).takeWhile p = _
    rw [List.takeWhile_cons, h c (by simp),
      takeWhile_all p l₁ l₂ (fun d hd => h d (by simp [hd]))]
    rfl

/-- The concrete prefix of every encoded command. -/
def cmdPrefix : List Char :=
  "mcp-sdk-runner --sdk-version 1.4.2 --tools ".data ++ [apos]

theorem toolsToCommand_data (ts : List FormTool) :
    (toolsToCommand ts).data = cmdPrefix ++ ((stringifyTools ts).data ++ [apos]) := by
  show ("mcp-sdk-runner --sdk-version " ++ CURRENT_SDK_VERSION ++ " --tools "
      ++ String.singleton apos ++ stringifyTools ts ++ String.singleton apos).data = _
  rw [String.data_append, String.data_append, String.data_append,
    String.data_append, String.data_append]
  rw [show ("mcp-sdk-runner --sdk-version ".data ++ CURRENT_SDK_VERSION.data
      ++ " --tools ".data ++ (String.singleton apos).data : List Char) = cmdPrefix from by decide]
  simp [List.append_assoc]

theorem extract_toolsToCommand (ts : List FormTool)
    (hap : apos ∉ (stringifyTools ts).data) :
    extractToolsArg (toolsToCommand ts) = some (stringifyTools ts) := by
  unfold extractToolsArg
  rw [toolsToCommand_data ts]
  rw [scanCap_skip 35 patTools [apos] cmdPrefix _ (by decide) (by decide)]
  rw [show cmdPrefix.drop 35 = patTools from by decide]
  have hne : (stringifyTools ts).data.isEmpty = false := by
    show ((('[' : Char) :: commaJoin (ts.map toolChars)) ++ [']']).isEmpty = false
    rfl
  have hall : ∀ c ∈ (stringifyTools ts).data,
      (fun c => decide (c ≠ apos)) c = true := by
    intro c hc
    simp only [decide_eq_true_eq]
    intro he
    exact hap (he ▸ hc)
  have htw : List.takeWhile (fun c => decide (c ≠ apos))
      ((stringifyTools ts).data ++ [apos]) = (stringifyTools ts).data := by
    rw [takeWhile_all _ _ _ hall]
    rw [show List.takeWhile (fun c => decide (c ≠ apos)) [apos] = [] from by decide]
    simp
  have hmc : matchCapAt patTools [apos]
      (patTools ++ ((stringifyTools ts).data ++ [apos])) =
      some (stringifyTools ts).data := by
    unfold matchCapAt
    rw [isPrefixOf_append_self]
    simp only [if_true]
    rw [show (patTools ++ ((stringifyTools ts).data ++ [apos])).drop patTools.length =
        (stringifyTools ts).data ++ [apos] from List.drop_left _ _]
    rw [htw, hne]
    simp only [Bool.false_eq_true, if_false]
    rw [List.drop_left]
    rw [show List.isPrefixOf [apos] [apos] = true from by decide]
    simp
  rw [show patTools ++ ((stringifyTools ts).data ++ [apos]) =
      '-' :: ('-' :: 't' :: 'o' :: 'o' :: 'l' :: 's' :: ' ' :: apos ::
        ((stringifyTools ts).data ++ [apos])) from rfl]
  rw [scanCap_cons]
  rw [show ('-' :: ('-' :: 't' :: 'o' :: 'o' :: 'l' :: 's' :: ' ' :: apos ::
      ((stringifyTools ts).data ++ [apos]))) =
    patTools ++ ((stringifyTools ts).data ++ [apos]) from rfl]
  rw [hmc]
  rfl

end MCP

namespace MCP

/-! ## C4: codec round trip -/

/-- A tool list on which the round-trip law fails: the tool's id is 1 (the
structured editor produces non-positional ids whenever a tool has been
removed), and its optional fields are absent. -/
def cexTools : List FormTool :=
  [{ id := 1, name := "a", type := "azure", index := "i", code := none,
     method := none, endpoint := none, description := "d",
     params := ⟨false, false, false, false⟩ }]

/-- C4 counterexample.  Encoding and decoding `cexTools` does not return
`cexTools`: the decoder assigns `id := 0` (the array position) and fills
the absent `code`, `method`, `endpoint` with their defaults. -/
theorem claim_C4_cex : commandToTools (toolsToCommand cexTools) ≠ some cexTools := by
  decide

/-- C4 as amended.  The round trip `commandToTools (toolsToCommand ts) =
some ts` holds for the tool lists the decoder itself produces: ids equal
to positions, `code`, `method` and `endpoint` present with a non-empty
method, and no apostrophe in any string field (an apostrophe would
truncate the quoted JSON at extraction). -/
theorem claim_C4_amended (ts : List FormTool)
    (hid : ∀ p ∈ ts.enum, (p.snd : FormTool).id = p.fst)
    (hnorm : ∀ t ∈ ts, normTool t)
    (hap : ∀ t ∈ ts, apos ∉ t.name.data ∧ apos ∉ t.type.data ∧
      apos ∉ t.index.data ∧ (∀ s, t.code = some s → apos ∉ s.data) ∧
      (∀ s, t.method = some s → apos ∉ s.data) ∧
      (∀ s, t.endpoint = some s → apos ∉ s.data) ∧ apos ∉ t.description.data) :
    commandToTools (toolsToCommand ts) = some ts := by
  unfold commandToTools
  rw [extract_toolsToCommand ts (stringifyTools_no_apos ts hap)]
  exact decodeToolsJson_tools ts hnorm hid

/-- A decoder-normal tool for the round-trip witness. -/
def roundTripTool : FormTool :=
  { id := 0, name := "a", type := "azure", index := "i", code := some "",
    method := some "GET", endpoint := some "", description := "d",
    params := ⟨false, true, false, false⟩ }

/-- Witness for the amended C4 at a concrete tool list. -/
theorem claim_C4_amended_witness :
    commandToTools (toolsToCommand [roundTripTool]) = some [roundTripTool] := by
  apply claim_C4_amended
  · decide
  · intro t ht
    simp only [List.mem_singleton] at ht
    subst ht
    exact ⟨"", "GET", "", rfl, rfl, by decide, rfl⟩
  · intro t ht
    simp only [List.mem_singleton] at ht
    subst ht
    exact ⟨by decide, by decide, by decide, fun s hs => by cases hs; decide,
      fun s hs => by cases hs; decide, fun s hs => by cases hs; decide, by decide⟩

/-! ## C8: decode failures degrade to the empty tool list -/

/-- C8.  When the canonical tools path recovers nothing and the heuristic
fallback recovers nothing, the edit-load produces the empty tool list for
the form (it never fails). -/
theorem claim_C8 (command : String) (tools : Option (List Tool))
    (hc : (commandToTools command).getD [] = [])
    (hh : ∀ tl, tools = some tl → heuristicTools tl = []) :
    editLoadTools command tools = [] := by
  simp only [editLoadTools]
  rw [hc]
  simp only [List.isEmpty_nil, if_true]
  cases tools with
  | none => rfl
  | some tl => exact hh tl rfl

/-- A rendered tool whose description matches neither heuristic pattern. -/
def plainTool : Tool := ⟨"t", "does things", []⟩

/-- Witness for C8: a command with no tools payload and a tool list the
heuristic cannot mine yield the empty form tool list. -/
theorem claim_C8_witness : editLoadTools "foo" (some [plainTool]) = [] :=
  claim_C8 "foo" (some [plainTool]) (by decide)
    (fun tl h => by cases h; decide)

end MCP
